import Mathlib

/-!
Verification of the scene-segmentation and caption-alignment core of
`scripts/storyboard_generator.py`.

The embedding models the two core functions of the repository:

* `extract_key_frames` (scene detection): the OpenCV capture is modelled by
  `Video`, whose `frames` list yields, for each successful `cap.read()`, the
  frame's timestamp (`cap.get(CAP_PROP_POS_MSEC) / 1000`, in seconds, a
  rational) together with its analysis buffer (the 640x360 grayscale image
  produced by `cv2.resize` + `cv2.cvtColor`, modelled as a row-major list of
  intensities).  A `none` entry models `cap.read()` returning `ret = False`
  (end of stream or a decode failure); the Python loop breaks there.
  Filesystem effects (`imwrite`, directory cleanup) are outside the model;
  a saved image is represented by its filename string.

* `process_vtt` (caption alignment): the `webvtt.read` call is external; its
  outcome is an input of the model (`none` = the exception caught by the
  `try/except`, `some cues` = the parsed cue list).  The uncaught
  `IndexError` raised by `scenes[-1]` on an empty list is modelled by the
  `Option` result being `none`.
-/

/-- A decoded frame: its timestamp in seconds and its analysis-resolution
grayscale buffer (result of `cv2.resize` to 640x360 and `cv2.cvtColor` to
gray, external image ops), as a row-major intensity list. -/
structure Frame where
  t : ℚ
  pix : List ℕ
deriving DecidableEq

/-- The `cv2.VideoCapture` source: whether `cap.isOpened()` holds, and the
successive results of `cap.read()` (`none` = `ret` is `False`). -/
structure Video where
  opened : Bool
  frames : List (Option Frame)
deriving DecidableEq

/-- A scene record as built by `extract_key_frames`:
`{'time': ..., 'img': ..., 'captions': []}`. -/
structure Scene where
  time : ℚ
  img : String
  captions : List String
deriving DecidableEq

/-- A scene record after `process_vtt` has added the `end_time` key
(`float('inf')` for the last scene is modelled by `⊤ : WithTop ℚ`). -/
structure SceneE where
  time : ℚ
  img : String
  captions : List String
  end_time : WithTop ℚ
deriving DecidableEq

/-- A caption cue: `caption.start_in_seconds` and `caption.text`. -/
structure Cue where
  start : ℚ
  text : String
deriving DecidableEq

/-- Width of the analysis resolution: `resize_dim = (640, 360)`. -/
def resizeW : ℕ := 640

/-- Height of the analysis resolution. -/
def resizeH : ℕ := 360

/-- Model of `total_pixels = resize_dim[0] * resize_dim[1]`. -/
def totalPixels : ℕ := resizeW * resizeH

/-- Model of `cv2.absdiff(prev_frame_gray, curr_frame_gray)`: per-pixel absolute
difference of the two buffers. -/
def absdiffL (a b : List ℕ) : List ℕ :=
  List.zipWith (fun x y => max x y - min x y) a b

/-- Model of `cv2.threshold(diff, 30, 255, cv2.THRESH_BINARY)`: a pixel maps to 255
when strictly above 30, else to 0. -/
def thresholdBin (img : List ℕ) : List ℕ :=
  img.map (fun p => if 30 < p then 255 else 0)

/-- Model of `cv2.countNonZero`: the number of nonzero pixels. -/
def countNonZero (img : List ℕ) : ℕ :=
  (img.filter (fun p => p != 0)).length

/-- Model of `change_ratio = changed_pixels / total_pixels` (float division, modelled
on ℚ; the denominator is the constant 640*360, as in the source). -/
def changeRatio (prev cur : List ℕ) : ℚ :=
  (countNonZero (thresholdBin (absdiffL prev cur)) : ℚ) / (totalPixels : ℚ)

/-- Truncation of a rational to an integer, as Python's `int(...)` does
(toward zero). -/
def pyInt (q : ℚ) : ℤ :=
  if 0 ≤ q then ⌊q⌋ else ⌈q⌉

/-- Little-endian decimal digits of `n`, computed with explicit fuel so that
the recursion is structural (`fuel = n` is always enough). -/
def digRev (fuel n : ℕ) : List ℕ :=
  match fuel with
  | 0 => []
  | fuel + 1 => if n = 0 then [] else (n % 10) :: digRev fuel (n / 10)

/-- The character for one decimal digit. -/
def digitChar (d : ℕ) : Char :=
  match d with
  | 0 => '0' | 1 => '1' | 2 => '2' | 3 => '3' | 4 => '4'
  | 5 => '5' | 6 => '6' | 7 => '7' | 8 => '8' | 9 => '9'
  | _ => '*'

/-- Big-endian decimal character string of a natural number (empty for 0,
as the digit list of 0 is empty; the `04d` padding below restores "0000"). -/
def natToChars (n : ℕ) : List Char :=
  (digRev n n).reverse.map digitChar

/-- Left-pad a character list with '0' to length 4, as `f"{n:04d}"` does for
nonnegative `n`. -/
def padLeft4 (cs : List Char) : List Char :=
  List.replicate (4 - cs.length) '0' ++ cs

/-- Characters of `f"{n:04d}"` for an integer `n` (a negative value keeps its
sign and pads the total width to 4; only nonnegative values are reachable). -/
def fmt04Chars (n : ℤ) : List Char :=
  if n < 0 then
    '-' :: (List.replicate (3 - (natToChars n.natAbs).length) '0' ++ natToChars n.natAbs)
  else
    padLeft4 (natToChars n.toNat)

/-- Characters of `f"frame_{int(timestamp):04d}.jpg"`. -/
def frameNameChars (t : ℚ) : List Char :=
  "frame_".data ++ fmt04Chars (pyInt t) ++ ".jpg".data

/-- The filename `f"frame_{int(timestamp):04d}.jpg"` of a boundary saved at
timestamp `t`. -/
def frameName (t : ℚ) : String :=
  ⟨frameNameChars t⟩

/-- The value `scenes[-1]['time']` (the list is never empty at call sites;
the default is unreachable). -/
def lastSceneTime (scenes : List Scene) : ℚ :=
  ((scenes.getLast?).map Scene.time).getD 0

/-- Body of the detection loop for one processed sample (source lines 66-90):
compute `change_ratio` of the current analysis buffer against the reference
buffer, and when `change_ratio > threshold and (timestamp - scenes[-1]['time']
> min_duration)` append a new scene named `frame_{int(timestamp):04d}.jpg`
and move the reference to the current buffer (`min_duration = 1.0`).  Returns
the updated `(prev_frame_gray, scenes)` pair. -/
def stepSample (threshold : ℚ) (prev : List ℕ) (scenes : List Scene) (f : Frame) :
    List ℕ × List Scene :=
  if threshold < changeRatio prev f.pix ∧ 1 < f.t - lastSceneTime scenes then
    (f.pix, scenes ++ [⟨f.t, frameName f.t, []⟩])
  else
    (prev, scenes)

/-- The `while True` loop of `extract_key_frames`: read frames until
`cap.read()` fails, increment `frame_count`, skip every frame with
`frame_count % skip_frames != 0` (`skip_frames = 2`), and process the rest
with `stepSample`. -/
def extractLoop (threshold : ℚ) :
    List (Option Frame) → List ℕ → List Scene → ℕ → List Scene
  | [], _, scenes, _ => scenes
  | none :: _, _, scenes, _ => scenes
  | some f :: rest, prev, scenes, cnt =>
    if (cnt + 1) % 2 ≠ 0 then
      extractLoop threshold rest prev scenes (cnt + 1)
    else
      extractLoop threshold rest (stepSample threshold prev scenes f).1
        (stepSample threshold prev scenes f).2 (cnt + 1)

/-- Model of `extract_key_frames(video_path, output_dir, threshold)`: an unopenable
capture prints an error and returns `[]`; a failed first read returns `[]`;
otherwise the first frame unconditionally becomes scene
`{'time': 0.0, 'img': "frame_0000.jpg", 'captions': []}` and its buffer the
initial reference, and the loop processes the remaining reads. -/
def extract_key_frames (video : Video) (threshold : ℚ) : List Scene :=
  if video.opened = false then []
  else
    match video.frames with
    | some f :: rest => extractLoop threshold rest f.pix [⟨0, "frame_0000.jpg", []⟩] 0
    | _ => []

/-- The end-time pass of `process_vtt` on a nonempty list:
`scenes[i]['end_time'] = scenes[i+1]['time']` for `i < len - 1` and
`scenes[-1]['end_time'] = float('inf')`. -/
def setEndTimes (scenes : List Scene) : List SceneE :=
  match scenes with
  | [] => []
  | [s] => [⟨s.time, s.img, s.captions, ⊤⟩]
  | s :: s' :: rest => ⟨s.time, s.img, s.captions, (s'.time : WithTop ℚ)⟩ :: setEndTimes (s' :: rest)

/-- The membership test of the cue-assignment loop:
`scene['time'] <= start_seconds < scene['end_time']`. -/
def matchP (s : ℚ) (sc : SceneE) : Prop :=
  sc.time ≤ s ∧ (s : WithTop ℚ) < sc.end_time

instance (s : ℚ) (sc : SceneE) : Decidable (matchP s sc) :=
  inferInstanceAs (Decidable (_ ∧ _))

/-- Assignment of one cue (source lines 117-121): scan the scene list in
order and append the cue text to the first scene satisfying `matchP`, then
`break`. -/
def assignCue (s : ℚ) (txt : String) : List SceneE → List SceneE
  | [] => []
  | sc :: rest =>
    if matchP s sc then
      ⟨sc.time, sc.img, sc.captions ++ [txt], sc.end_time⟩ :: rest
    else
      sc :: assignCue s txt rest

/-- The `for caption in captions` loop of `process_vtt`. -/
def assignCues (cues : List Cue) (scenes : List SceneE) : List SceneE :=
  cues.foldl (fun sc c => assignCue c.start c.text sc) scenes

/-- Result of `process_vtt`: either the early return of the original scene
list when `webvtt.read` raised (the `except` branch), or the scene list with
end times and captions assigned. -/
inductive PvttResult where
  | parseFailed (scenes : List Scene)
  | ok (scenes : List SceneE)
deriving DecidableEq

/-- Model of `process_vtt(vtt_path, scenes)`: `parsed` is the outcome of the external
`webvtt.read` (`none` = exception, caught and answered with the unchanged
scene list).  On the success path the end-time pass runs first; on an empty
scene list `scenes[-1]` raises an uncaught `IndexError`, modelled by the
result `none`. -/
def process_vtt (parsed : Option (List Cue)) (scenes : List Scene) : Option PvttResult :=
  match parsed with
  | none => some (.parseFailed scenes)
  | some cues =>
    match scenes with
    | [] => none
    | _ => some (.ok (assignCues cues (setEndTimes scenes)))

/-! ### Pixel-difference computations on replicated buffers -/

lemma countNonZero_replicate (n v : ℕ) :
    countNonZero (List.replicate n v) = if v = 0 then 0 else n := by
  induction n with
  | zero => simp [countNonZero]
  | succ n ih =>
    rcases eq_or_ne v 0 with rfl | hv
    · simp [countNonZero, List.replicate_succ, List.filter_cons] at ih ⊢
    · simp only [countNonZero, List.replicate_succ, List.filter_cons] at ih ⊢
      simp [hv, ih]

lemma absdiffL_replicate (n a b : ℕ) :
    absdiffL (List.replicate n a) (List.replicate n b) =
      List.replicate n (max a b - min a b) := by
  simp [absdiffL, List.zipWith_replicate]

lemma changed_replicate (n a b : ℕ) :
    countNonZero (thresholdBin (absdiffL (List.replicate n a) (List.replicate n b))) =
      if 30 < max a b - min a b then n else 0 := by
  by_cases h : 30 < max a b - min a b <;>
    simp [absdiffL_replicate, thresholdBin, List.map_replicate, h, countNonZero_replicate]

lemma changed_append (a₁ a₂ b₁ b₂ : List ℕ) (h : a₁.length = b₁.length) :
    countNonZero (thresholdBin (absdiffL (a₁ ++ a₂) (b₁ ++ b₂))) =
      countNonZero (thresholdBin (absdiffL a₁ b₁)) +
        countNonZero (thresholdBin (absdiffL a₂ b₂)) := by
  simp [absdiffL, List.zipWith_append _ _ _ _ _ h, thresholdBin, countNonZero,
    List.filter_append]

/-! ### Decimal formatting: a decode function inverts `padLeft4 ∘ natToChars` -/

/-- Value of the little-endian digit list produced by `digRev`. -/
def ofLE (l : List ℕ) : ℕ :=
  l.foldr (fun d acc => d + 10 * acc) 0

/-- Value in base 10 of a big-endian character string of digits; leading '0'
characters do not change the value. -/
def decodeChars (cs : List Char) : ℕ :=
  cs.foldl (fun a c => 10 * a + (c.toNat - 48)) 0

lemma ofLE_digRev : ∀ fuel n : ℕ, n ≤ fuel → ofLE (digRev fuel n) = n := by
  intro fuel
  induction fuel with
  | zero =>
    intro n hn
    interval_cases n
    simp [digRev, ofLE]
  | succ fuel ih =>
    intro n hn
    rcases eq_or_ne n 0 with rfl | h0
    · simp [digRev, ofLE]
    · have hdiv : n / 10 ≤ fuel := by
        have h1 : n / 10 < n := Nat.div_lt_self (Nat.pos_of_ne_zero h0) (by norm_num)
        omega
      simp only [digRev, h0, if_false, ofLE, List.foldr_cons]
      have := ih (n / 10) hdiv
      simp only [ofLE] at this
      rw [this]
      omega

lemma digRev_digit_lt : ∀ fuel n d : ℕ, d ∈ digRev fuel n → d < 10 := by
  intro fuel
  induction fuel with
  | zero => intro n d hd; simp [digRev] at hd
  | succ fuel ih =>
    intro n d hd
    rcases eq_or_ne n 0 with rfl | h0
    · simp [digRev] at hd
    · simp only [digRev, h0, if_false, List.mem_cons] at hd
      rcases hd with rfl | hd
      · exact Nat.mod_lt _ (by norm_num)
      · exact ih _ _ hd

lemma toNat_digitChar (d : ℕ) (h : d < 10) : (digitChar d).toNat = 48 + d := by
  interval_cases d <;> rfl

lemma decodeChars_rev_map (l : List ℕ) (h : ∀ d ∈ l, d < 10) :
    decodeChars ((l.reverse).map digitChar) = ofLE l := by
  induction l with
  | nil => rfl
  | cons d l ih =>
    have hd : d < 10 := h d (List.mem_cons_self d l)
    have hl : ∀ x ∈ l, x < 10 := fun x hx => h x (List.mem_cons_of_mem d hx)
    simp only [List.reverse_cons, List.map_append, List.map_cons, List.map_nil]
    simp only [decodeChars, List.foldl_append, List.foldl_cons, List.foldl_nil]
    have ihe : List.foldl (fun a c => 10 * a + (c.toNat - 48)) 0 (l.reverse.map digitChar) = ofLE l := ih hl
    rw [ihe, toNat_digitChar d hd]
    simp only [ofLE, List.foldr_cons]
    omega

lemma decodeChars_natToChars (n : ℕ) : decodeChars (natToChars n) = n := by
  rw [natToChars, decodeChars_rev_map _ (fun d hd => digRev_digit_lt n n d hd),
    ofLE_digRev n n le_rfl]

lemma decodeChars_zero_pad (k : ℕ) (cs : List Char) :
    decodeChars (List.replicate k '0' ++ cs) = decodeChars cs := by
  have hz : List.foldl (fun a c => 10 * a + (c.toNat - 48)) 0 (List.replicate k '0') = 0 := by
    induction k with
    | zero => rfl
    | succ k ih => simpa [List.replicate_succ] using ih
  simp [decodeChars, List.foldl_append, hz]

lemma decodeChars_padLeft4_natToChars (n : ℕ) :
    decodeChars (padLeft4 (natToChars n)) = n := by
  rw [padLeft4, decodeChars_zero_pad, decodeChars_natToChars]

lemma fmt04Chars_inj_of_nonneg {m n : ℤ} (hm : 0 ≤ m) (hn : 0 ≤ n)
    (h : fmt04Chars m = fmt04Chars n) : m = n := by
  rw [fmt04Chars, if_neg (by omega), fmt04Chars, if_neg (by omega)] at h
  have := congrArg decodeChars h
  rw [decodeChars_padLeft4_natToChars, decodeChars_padLeft4_natToChars] at this
  omega

lemma pyInt_of_nonneg {q : ℚ} (h : 0 ≤ q) : pyInt q = ⌊q⌋ := by
  simp [pyInt, h]

lemma pyInt_nonneg {q : ℚ} (h : 0 ≤ q) : 0 ≤ pyInt q := by
  rw [pyInt_of_nonneg h]
  exact Int.floor_nonneg.mpr h

lemma frameName_ne {a b : ℚ} (ha : 0 ≤ a) (hb : 0 ≤ b)
    (h : pyInt a ≠ pyInt b) : frameName a ≠ frameName b := by
  intro he
  apply h
  have hchars : frameNameChars a = frameNameChars b := congrArg String.data he
  rw [frameNameChars, frameNameChars, List.append_assoc, List.append_assoc] at hchars
  have h2 := List.append_cancel_left hchars
  have h3 := List.append_cancel_right h2
  exact fmt04Chars_inj_of_nonneg (pyInt_nonneg ha) (pyInt_nonneg hb) h3

lemma frameName_zero : frameName 0 = "frame_0000.jpg" := by
  decide

/-! ### Shape of the scene list produced by the detection loop -/

lemma lastSceneTime_eq (l : List Scene) (h : l ≠ []) :
    lastSceneTime l = (l.getLast h).time := by
  simp [lastSceneTime, List.getLast?_eq_getLast l h]

/-- Gap relation between consecutive boundaries: the debounce guard forces
each new scene to start more than `min_duration = 1` after the previous. -/
def sceneGap (a b : Scene) : Prop := a.time + 1 < b.time

instance : IsTrans Scene sceneGap :=
  ⟨fun a b c hab hbc => by simp only [sceneGap] at *; linarith⟩

lemma extractLoop_append_spec (θ : ℚ) (frames : List (Option Frame)) :
    ∀ (prev : List ℕ) (scenes : List Scene) (cnt : ℕ) (h : scenes ≠ []),
      ∃ tail, extractLoop θ frames prev scenes cnt = scenes ++ tail ∧
        List.Chain sceneGap (scenes.getLast h) tail ∧
        ∀ s ∈ tail, s.img = frameName s.time ∧ s.captions = [] := by
  induction frames with
  | nil =>
    intro prev scenes cnt h
    exact ⟨[], by simp [extractLoop], List.Chain.nil, by simp⟩
  | cons o rest ih =>
    intro prev scenes cnt h
    match o with
    | none => exact ⟨[], by simp [extractLoop], List.Chain.nil, by simp⟩
    | some f =>
      by_cases hskip : (cnt + 1) % 2 ≠ 0
      · obtain ⟨tail, heq, hchain, himg⟩ := ih prev scenes (cnt + 1) h
        exact ⟨tail, by rw [extractLoop, if_pos hskip]; exact heq, hchain, himg⟩
      · by_cases htrig : θ < changeRatio prev f.pix ∧ 1 < f.t - lastSceneTime scenes
        · have hstep : stepSample θ prev scenes f =
              (f.pix, scenes ++ [⟨f.t, frameName f.t, []⟩]) := by
            rw [stepSample, if_pos htrig]
          obtain ⟨tail, heq, hchain, himg⟩ :=
            ih f.pix (scenes ++ [⟨f.t, frameName f.t, []⟩]) (cnt + 1) (by simp)
          refine ⟨⟨f.t, frameName f.t, []⟩ :: tail, ?_, ?_, ?_⟩
          · rw [extractLoop, if_neg hskip, hstep]
            simpa [List.append_assoc] using heq
          · refine List.Chain.cons ?_ ?_
            · have h2 := htrig.2
              rw [lastSceneTime_eq scenes h] at h2
              simp only [sceneGap]
              linarith
            · have hlast : (scenes ++ [(⟨f.t, frameName f.t, []⟩ : Scene)]).getLast (by simp) =
                  (⟨f.t, frameName f.t, []⟩ : Scene) := List.getLast_concat _
              rwa [hlast] at hchain
          · intro s hs
            rcases List.mem_cons.mp hs with rfl | hs
            · exact ⟨rfl, rfl⟩
            · exact himg s hs
        · have hstep : stepSample θ prev scenes f = (prev, scenes) := by
            rw [stepSample, if_neg htrig]
          obtain ⟨tail, heq, hchain, himg⟩ := ih prev scenes (cnt + 1) h
          exact ⟨tail, by rw [extractLoop, if_neg hskip, hstep]; exact heq, hchain, himg⟩

/-- Any scene list produced by `extract_key_frames` on a stream whose first
read succeeds is the unconditional first scene at time 0 followed by
boundaries spaced more than 1 second apart, each named from its timestamp and
created with empty captions. -/
lemma extract_shape (v : Video) (θ : ℚ) (f : Frame) (rest : List (Option Frame))
    (hop : v.opened = true) (hfr : v.frames = some f :: rest) :
    ∃ tail, extract_key_frames v θ = (⟨0, "frame_0000.jpg", []⟩ : Scene) :: tail ∧
      List.Chain sceneGap (⟨0, "frame_0000.jpg", []⟩ : Scene) tail ∧
      ∀ s ∈ tail, s.img = frameName s.time ∧ s.captions = [] := by
  obtain ⟨tail, heq, hchain, himg⟩ :=
    extractLoop_append_spec θ rest f.pix [⟨0, "frame_0000.jpg", []⟩] 0 (by simp)
  refine ⟨tail, ?_, ?_, himg⟩
  · rw [extract_key_frames, if_neg (by simp [hop]), hfr]
    simpa using heq
  · simpa using hchain

/-! ### Structure of the end-time pass -/

/-- Projection dropping the `end_time` key. -/
def projScene (se : SceneE) : Scene :=
  ⟨se.time, se.img, se.captions⟩

lemma setEndTimes_proj : ∀ l : List Scene, (setEndTimes l).map projScene = l := by
  intro l
  induction l with
  | nil => rfl
  | cons s l ih =>
    cases l with
    | nil => rfl
    | cons s' rest => simp only [setEndTimes, List.map_cons] at ih ⊢; rw [ih]; rfl

lemma setEndTimes_length (l : List Scene) : (setEndTimes l).length = l.length := by
  have := congrArg List.length (setEndTimes_proj l)
  simpa using this

lemma setEndTimes_map_time (l : List Scene) :
    (setEndTimes l).map SceneE.time = l.map Scene.time := by
  have := congrArg (List.map Scene.time) (setEndTimes_proj l)
  rw [List.map_map] at this
  exact this

lemma setEndTimes_chain : ∀ l : List Scene,
    List.Chain' (fun a b => a.end_time = (b.time : WithTop ℚ)) (setEndTimes l) := by
  intro l
  induction l with
  | nil => exact List.chain'_nil
  | cons s l ih =>
    cases l with
    | nil => simp [setEndTimes]
    | cons s' rest =>
      rw [setEndTimes]
      refine List.chain'_cons'.mpr ⟨?_, ih⟩
      intro y hy
      cases rest with
      | nil => simp only [setEndTimes, List.head?_cons, Option.mem_def, Option.some_inj] at hy; rw [hy.symm]
      | cons s'' rest' => simp only [setEndTimes, List.head?_cons, Option.mem_def, Option.some_inj] at hy; rw [hy.symm]

lemma setEndTimes_ne_nil (l : List Scene) (h : l ≠ []) : setEndTimes l ≠ [] := by
  cases l with
  | nil => exact absurd rfl h
  | cons s t => cases t <;> simp [setEndTimes]

lemma setEndTimes_getLast? : ∀ (l : List Scene) (e : SceneE),
    (setEndTimes l).getLast? = some e → e.end_time = ⊤ := by
  intro l
  induction l with
  | nil => intro e he; simp [setEndTimes] at he
  | cons s l ih =>
    cases l with
    | nil =>
      intro e he
      simp only [setEndTimes, List.getLast?_singleton, Option.some_inj] at he
      rw [← he]
    | cons s' rest =>
      intro e he
      have hsE : setEndTimes (s :: s' :: rest) =
          (⟨s.time, s.img, s.captions, (s'.time : WithTop ℚ)⟩ : SceneE) :: setEndTimes (s' :: rest) := rfl
      rw [hsE] at he
      apply ih e
      cases hM : setEndTimes (s' :: rest) with
      | nil => exact absurd hM (setEndTimes_ne_nil _ (by simp))
      | cons m M =>
        rw [hM] at he
        rwa [List.getLast?_cons_cons] at he

lemma setEndTimes_last (l : List Scene) (hne2 : setEndTimes l ≠ []) :
    ((setEndTimes l).getLast hne2).end_time = ⊤ :=
  setEndTimes_getLast? l _ (List.getLast?_eq_getLast _ hne2)

/-! ### Locating a cue inside a contiguous interval list -/

lemma matches_filter_length_one :
    ∀ (l : List SceneE) (q : ℚ) (hne : l ≠ [])
      (_ : List.Chain' (fun a b => a.end_time = (b.time : WithTop ℚ)) l)
      (_ : (l.getLast hne).end_time = ⊤)
      (_ : List.Pairwise (fun a b : SceneE => a.time < b.time) l)
      (_ : (l.head hne).time ≤ q),
      (l.filter (fun sc => decide (matchP q sc))).length = 1 := by
  intro l
  induction l with
  | nil => intro q hne; exact absurd rfl hne
  | cons e l ih =>
    intro q hne hchain hlast hinc hhead
    cases l with
    | nil =>
      have hm : matchP q e := by
        refine ⟨hhead, ?_⟩
        have : e.end_time = ⊤ := hlast
        rw [this]
        exact WithTop.coe_lt_top q
      simp [hm]
    | cons e' rest =>
      have hchain2 := List.chain'_cons.mp hchain
      have hendE : e.end_time = (e'.time : WithTop ℚ) := hchain2.1
      have hinc2 := List.pairwise_cons.mp hinc
      by_cases hq : q < e'.time
      · have hm : matchP q e := by
          refine ⟨hhead, ?_⟩
          rw [hendE]
          exact_mod_cast hq
        have hnone : ∀ x ∈ e' :: rest, ¬ matchP q x := by
          intro x hx hmx
          have hxt : e'.time ≤ x.time := by
            rcases List.mem_cons.mp hx with rfl | hx'
            · exact le_rfl
            · exact (List.pairwise_cons.mp hinc2.2).1 x hx' |>.le
          exact absurd (hmx.1.trans_lt hq) (not_lt.mpr hxt)
        rw [List.filter_cons, if_pos (by simpa using hm)]
        have : List.filter (fun sc => decide (matchP q sc)) (e' :: rest) = [] := by
          rw [List.filter_eq_nil_iff]
          intro x hx
          simpa using hnone x hx
        rw [this]
        rfl
      · have hm : ¬ matchP q e := by
          intro hmx
          obtain ⟨hm1, hm2⟩ := hmx
          rw [hendE] at hm2
          exact hq (by exact_mod_cast hm2)
        rw [List.filter_cons, if_neg (by simpa using hm)]
        refine ih q (by simp) hchain2.2 ?_ hinc2.2 (not_lt.mp hq)
        have := hlast
        rwa [List.getLast_cons] at this

lemma matches_pairwise_disjoint :
    ∀ (l : List SceneE) (q : ℚ)
      (_ : List.Chain' (fun a b => a.end_time = (b.time : WithTop ℚ)) l)
      (_ : List.Pairwise (fun a b : SceneE => a.time < b.time) l),
      List.Pairwise (fun a b => ¬(matchP q a ∧ matchP q b)) l := by
  intro l
  induction l with
  | nil => intro q _ _; exact List.Pairwise.nil
  | cons e l ih =>
    intro q hchain hinc
    have hinc2 := List.pairwise_cons.mp hinc
    cases l with
    | nil => exact List.pairwise_cons.mpr ⟨by simp, List.Pairwise.nil⟩
    | cons e' rest =>
      have hchain2 := List.chain'_cons.mp hchain
      have hendE : e.end_time = (e'.time : WithTop ℚ) := hchain2.1
      refine List.pairwise_cons.mpr ⟨?_, ih q hchain2.2 hinc2.2⟩
      intro b hb ⟨hma, hmb⟩
      have hbt : e'.time ≤ b.time := by
        rcases List.mem_cons.mp hb with rfl | hb'
        · exact le_rfl
        · exact (List.pairwise_cons.mp hinc2.2).1 b hb' |>.le
      have hq : (q : WithTop ℚ) < (e'.time : WithTop ℚ) := by rw [← hendE]; exact hma.2
      have hq' : q < e'.time := by exact_mod_cast hq
      exact absurd (hmb.1.trans_lt hq') (not_lt.mpr hbt)

/-! ### Behaviour of the cue-assignment loop -/

/-- Appending one caption text to a scene record, leaving every other field
unchanged. -/
def addCap (txt : String) (sc : SceneE) : SceneE :=
  ⟨sc.time, sc.img, sc.captions ++ [txt], sc.end_time⟩

lemma matchP_addCap (s : ℚ) (txt : String) (sc : SceneE) :
    matchP s (addCap txt sc) ↔ matchP s sc := Iff.rfl

lemma assignCue_eq_map (s : ℚ) (txt : String) :
    ∀ l : List SceneE, List.Pairwise (fun a b => ¬(matchP s a ∧ matchP s b)) l →
      assignCue s txt l = l.map (fun sc => if matchP s sc then addCap txt sc else sc) := by
  intro l
  induction l with
  | nil => intro _; rfl
  | cons sc rest ih =>
    intro hp
    have hp2 := List.pairwise_cons.mp hp
    by_cases hm : matchP s sc
    · rw [assignCue, if_pos hm, List.map_cons, if_pos hm]
      have : rest.map (fun x => if matchP s x then addCap txt x else x) = rest := by
        have : ∀ x ∈ rest, (if matchP s x then addCap txt x else x) = x := by
          intro x hx
          rw [if_neg (fun hmx => hp2.1 x hx ⟨hm, hmx⟩)]
        rw [List.map_congr_left this, List.map_id']
      rw [this]
      rfl
    · rw [assignCue, if_neg hm, List.map_cons, if_neg hm, ih hp2.2]

lemma assignCues_eq_map (cues : List Cue) :
    ∀ l : List SceneE,
      (∀ c ∈ cues, List.Pairwise (fun a b => ¬(matchP c.start a ∧ matchP c.start b)) l) →
      assignCues cues l = l.map (fun sc =>
        ⟨sc.time, sc.img,
          sc.captions ++ (cues.filter (fun c => decide (matchP c.start sc))).map Cue.text,
          sc.end_time⟩) := by
  induction cues with
  | nil =>
    intro l _
    have : ∀ sc ∈ l,
        (⟨sc.time, sc.img, sc.captions ++
            (([] : List Cue).filter (fun c => decide (matchP c.start sc))).map Cue.text,
          sc.end_time⟩ : SceneE) = sc := by
      intro sc _
      simp
    rw [assignCues, List.foldl_nil, List.map_congr_left this, List.map_id']
  | cons c cs ih =>
    intro l hdis
    have hstep : assignCues (c :: cs) l = assignCues cs (assignCue c.start c.text l) := rfl
    rw [hstep, assignCue_eq_map c.start c.text l (hdis c (List.mem_cons_self c cs))]
    have hdis' : ∀ c' ∈ cs, List.Pairwise (fun a b => ¬(matchP c'.start a ∧ matchP c'.start b))
        (l.map (fun sc => if matchP c.start sc then addCap c.text sc else sc)) := by
      intro c' hc'
      rw [List.pairwise_map]
      refine (hdis c' (List.mem_cons_of_mem c hc')).imp ?_
      intro a b hab hm
      apply hab
      constructor
      · have := hm.1
        by_cases hma : matchP c.start a <;> simp only [hma, if_true, if_false,
          matchP_addCap, if_pos, if_neg, not_false_iff] at this <;> exact this
      · have := hm.2
        by_cases hmb : matchP c.start b <;> simp only [hmb, if_true, if_false,
          matchP_addCap, if_pos, if_neg, not_false_iff] at this <;> exact this
    rw [ih _ hdis', List.map_map]
    refine List.map_congr_left ?_
    intro sc _
    by_cases hm : matchP c.start sc
    · simp only [Function.comp_apply, if_pos hm, List.filter_cons]
      have hend : (addCap c.text sc).end_time = sc.end_time := rfl
      have htime : (addCap c.text sc).time = sc.time := rfl
      have himg : (addCap c.text sc).img = sc.img := rfl
      have hfil : ∀ x : Cue, (decide (matchP x.start (addCap c.text sc))) =
          (decide (matchP x.start sc)) := by
        intro x
        simp [matchP_addCap]
      rw [htime, himg, hend]
      have hcap : (addCap c.text sc).captions = sc.captions ++ [c.text] := rfl
      rw [hcap]
      have : List.filter (fun x => decide (matchP x.start (addCap c.text sc))) cs =
          List.filter (fun x => decide (matchP x.start sc)) cs := by
        apply List.filter_congr
        intro x _
        exact hfil x
      rw [this, if_pos (by simpa using hm)]
      simp [List.append_assoc]
    · simp only [Function.comp_apply, if_neg hm, List.filter_cons]
      rw [if_neg (by simpa using hm)]

lemma assignCue_length (s : ℚ) (txt : String) :
    ∀ l : List SceneE, (assignCue s txt l).length = l.length := by
  intro l
  induction l with
  | nil => rfl
  | cons sc rest ih =>
    by_cases hm : matchP s sc
    · rw [assignCue, if_pos hm]; rfl
    · rw [assignCue, if_neg hm]; simpa using ih

lemma assignCues_length (cues : List Cue) :
    ∀ l : List SceneE, (assignCues cues l).length = l.length := by
  induction cues with
  | nil => intro l; rfl
  | cons c cs ih =>
    intro l
    have hstep : assignCues (c :: cs) l = assignCues cs (assignCue c.start c.text l) := rfl
    rw [hstep, ih, assignCue_length]

/-- Relation between a scene record before and after caption assignment:
every field but `captions` is unchanged, and `captions` only grew at the
end. -/
def capExt (orig cur : SceneE) : Prop :=
  cur.time = orig.time ∧ cur.img = orig.img ∧ cur.end_time = orig.end_time ∧
    ∃ added, cur.captions = orig.captions ++ added

lemma capExt_refl (sc : SceneE) : capExt sc sc :=
  ⟨rfl, rfl, rfl, [], by simp⟩

lemma capExt_trans {a b c : SceneE} (h1 : capExt a b) (h2 : capExt b c) : capExt a c := by
  obtain ⟨t1, i1, e1, a1, c1⟩ := h1
  obtain ⟨t2, i2, e2, a2, c2⟩ := h2
  exact ⟨t2.trans t1, i2.trans i1, e2.trans e1, a1 ++ a2, by rw [c2, c1, List.append_assoc]⟩

lemma capExt_addCap (txt : String) (sc : SceneE) : capExt sc (addCap txt sc) :=
  ⟨rfl, rfl, rfl, [txt], rfl⟩

lemma assignCue_forall2 (s : ℚ) (txt : String) :
    ∀ l : List SceneE, List.Forall₂ capExt l (assignCue s txt l) := by
  intro l
  induction l with
  | nil => exact List.Forall₂.nil
  | cons sc rest ih =>
    by_cases hm : matchP s sc
    · rw [assignCue, if_pos hm]
      exact List.Forall₂.cons (capExt_addCap txt sc)
        (List.forall₂_same.mpr (fun x _ => capExt_refl x))
    · rw [assignCue, if_neg hm]
      exact List.Forall₂.cons (capExt_refl sc) ih

lemma forall2_capExt_trans :
    ∀ {a b c : List SceneE}, List.Forall₂ capExt a b → List.Forall₂ capExt b c →
      List.Forall₂ capExt a c := by
  intro a b c hab
  induction hab generalizing c with
  | nil =>
    intro hbc
    cases hbc
    exact List.Forall₂.nil
  | cons h t ih =>
    intro hbc
    cases hbc with
    | cons h2 t2 => exact List.Forall₂.cons (capExt_trans h h2) (ih t2)

lemma assignCues_forall2 (cues : List Cue) :
    ∀ l : List SceneE, List.Forall₂ capExt l (assignCues cues l) := by
  induction cues with
  | nil => intro l; exact List.forall₂_same.mpr (fun x _ => capExt_refl x)
  | cons c cs ih =>
    intro l
    have hstep : assignCues (c :: cs) l = assignCues cs (assignCue c.start c.text l) := rfl
    rw [hstep]
    exact forall2_capExt_trans (assignCue_forall2 c.start c.text l)
      (ih (assignCue c.start c.text l))

lemma setEndTimes_get : ∀ (l : List Scene) (i : ℕ) (h1 : i < (setEndTimes l).length)
    (h2 : i < l.length),
    projScene ((setEndTimes l).get ⟨i, h1⟩) = l.get ⟨i, h2⟩ := by
  intro l
  induction l with
  | nil => intro i h1 h2; simp at h2
  | cons s l ih =>
    cases l with
    | nil =>
      intro i h1 h2
      cases i with
      | zero => rfl
      | succ i => simp at h2
    | cons s' rest =>
      intro i h1 h2
      cases i with
      | zero => rfl
      | succ i =>
        exact ih i (by simpa [setEndTimes] using h1) (by simpa using h2)

/-! ### Concrete analysis buffers for the end-to-end and drift scenarios -/

/-- An all-black analysis buffer (230400 = 640*360 pixels). -/
def blankPix : List ℕ := List.replicate 230400 0

/-- A buffer differing from `blankPix` in exactly 90 percent of the pixels. -/
def ninetyPix : List ℕ := List.replicate 207360 255 ++ List.replicate 23040 0

/-- A buffer differing from `blankPix` in 1500 pixels (under 1 percent). -/
def drift1Pix : List ℕ := List.replicate 1500 255 ++ List.replicate 228900 0

/-- A buffer differing from `blankPix` in 3000 pixels (over 1 percent) but
from `drift1Pix` in only 1500 pixels (under 1 percent). -/
def drift2Pix : List ℕ := List.replicate 3000 255 ++ List.replicate 227400 0

/-- Replicated buffers of the same length, used to discharge the length side
condition of `changed_append`. -/
lemma replen (n a b : ℕ) :
    (List.replicate n a).length = (List.replicate n b).length := by
  rw [List.length_replicate, List.length_replicate]

lemma changeRatio_blank_ninety : changeRatio blankPix ninetyPix = 9 / 10 := by
  have hsplit : blankPix = List.replicate 207360 0 ++ List.replicate 23040 0 := by
    rw [blankPix, show (230400 : ℕ) = 207360 + 23040 by norm_num, List.replicate_add]
  rw [changeRatio, hsplit, ninetyPix,
    changed_append _ _ _ _ (replen 207360 0 255), changed_replicate, changed_replicate]
  norm_num [totalPixels, resizeW, resizeH]

lemma changeRatio_blank_drift1 : changeRatio blankPix drift1Pix = 1500 / 230400 := by
  have hsplit : blankPix = List.replicate 1500 0 ++ List.replicate 228900 0 := by
    rw [blankPix, show (230400 : ℕ) = 1500 + 228900 by norm_num, List.replicate_add]
  rw [changeRatio, hsplit, drift1Pix,
    changed_append _ _ _ _ (replen 1500 0 255), changed_replicate, changed_replicate]
  norm_num [totalPixels, resizeW, resizeH]

lemma changeRatio_blank_drift2 : changeRatio blankPix drift2Pix = 3000 / 230400 := by
  have hsplit : blankPix = List.replicate 3000 0 ++ List.replicate 227400 0 := by
    rw [blankPix, show (230400 : ℕ) = 3000 + 227400 by norm_num, List.replicate_add]
  rw [changeRatio, hsplit, drift2Pix,
    changed_append _ _ _ _ (replen 3000 0 255), changed_replicate, changed_replicate]
  norm_num [totalPixels, resizeW, resizeH]

lemma changeRatio_drift1_drift2 : changeRatio drift1Pix drift2Pix = 1500 / 230400 := by
  have h1 : drift1Pix = List.replicate 1500 255 ++ (List.replicate 1500 0 ++ List.replicate 227400 0) := by
    rw [drift1Pix, show (228900 : ℕ) = 1500 + 227400 by norm_num, List.replicate_add]
  have h2 : drift2Pix = List.replicate 1500 255 ++ (List.replicate 1500 255 ++ List.replicate 227400 0) := by
    rw [drift2Pix, show (3000 : ℕ) = 1500 + 1500 by norm_num, List.replicate_add,
      List.append_assoc]
  rw [changeRatio, h1, h2, changed_append _ _ _ _ (replen 1500 255 255),
    changed_append _ _ _ _ (replen 1500 0 255), changed_replicate, changed_replicate,
    changed_replicate]
  norm_num [totalPixels, resizeW, resizeH]

lemma frameName_two : frameName 2 = "frame_0002.jpg" := by decide

/-! ### Unfolding equations for the detection loop -/

lemma extractLoop_nil (θ : ℚ) (prev : List ℕ) (scenes : List Scene) (cnt : ℕ) :
    extractLoop θ [] prev scenes cnt = scenes := rfl

lemma extractLoop_read_failed (θ : ℚ) (rest : List (Option Frame)) (prev : List ℕ)
    (scenes : List Scene) (cnt : ℕ) :
    extractLoop θ (none :: rest) prev scenes cnt = scenes := rfl

lemma extractLoop_skip (θ : ℚ) (f : Frame) (rest : List (Option Frame)) (prev : List ℕ)
    (scenes : List Scene) (cnt : ℕ) (h : (cnt + 1) % 2 ≠ 0) :
    extractLoop θ (some f :: rest) prev scenes cnt =
      extractLoop θ rest prev scenes (cnt + 1) := by
  rw [extractLoop, if_pos h]

lemma extractLoop_proc (θ : ℚ) (f : Frame) (rest : List (Option Frame)) (prev : List ℕ)
    (scenes : List Scene) (cnt : ℕ) (h : ¬((cnt + 1) % 2 ≠ 0)) :
    extractLoop θ (some f :: rest) prev scenes cnt =
      extractLoop θ rest (stepSample θ prev scenes f).1
        (stepSample θ prev scenes f).2 (cnt + 1) := by
  rw [extractLoop, if_neg h]

/-! ### Concrete streams -/

/-- First frame of the end-to-end scenario: blank at t = 0. -/
def c8f0 : Frame := ⟨0, blankPix⟩

/-- Second frame: blank at t = 0.5 (an odd `frame_count`, so it is skipped). -/
def c8f1 : Frame := ⟨1/2, blankPix⟩

/-- Third frame: 90 percent different at t = 2. -/
def c8f2 : Frame := ⟨2, ninetyPix⟩

/-- The three-frame synthetic stream of the end-to-end scenario. -/
def c8video : Video := ⟨true, [some c8f0, some c8f1, some c8f2]⟩

/-- Cues at t = 1 ("hello") and t = 2.5 ("world"). -/
def c8cues : List Cue := [⟨1, "hello"⟩, ⟨5/2, "world"⟩]

/-- Expected scene list of the end-to-end scenario. -/
def c8scenes : List Scene := [⟨0, "frame_0000.jpg", []⟩, ⟨2, "frame_0002.jpg", []⟩]

/-- Expected final records: scene 0 covers `[0, 2)` and holds "hello",
scene 1 covers `[2, ∞)` and holds "world". -/
def c8scenesE : List SceneE :=
  [⟨0, "frame_0000.jpg", ["hello"], ((2 : ℚ) : WithTop ℚ)⟩,
   ⟨2, "frame_0002.jpg", ["world"], ⊤⟩]

/-- Drift scenario, frame read at `frame_count` 1 (skipped). -/
def d2f1 : Frame := ⟨1/2, blankPix⟩

/-- Drift scenario, frame read at `frame_count` 2: differs from the reference
in 1500 pixels, below the 1 percent threshold. -/
def d2f2 : Frame := ⟨1, drift1Pix⟩

/-- Drift scenario, frame read at `frame_count` 3 (skipped). -/
def d2f3 : Frame := ⟨3/2, drift1Pix⟩

/-- Drift scenario, frame read at `frame_count` 4: differs from the previous
processed sample in only 1500 pixels but from the reference in 3000. -/
def d2f4 : Frame := ⟨2, drift2Pix⟩

/-- The drift stream: every adjacent processed pair differs below threshold,
yet the accumulated difference against the reference crosses it. -/
def d2video : Video := ⟨true, [some ⟨0, blankPix⟩, some d2f1, some d2f2, some d2f3, some d2f4]⟩

lemma lastSceneTime_first : lastSceneTime [(⟨0, "frame_0000.jpg", []⟩ : Scene)] = 0 := rfl

lemma c8_step : stepSample (1/100) blankPix [⟨0, "frame_0000.jpg", []⟩] c8f2 =
    (ninetyPix, c8scenes) := by
  have hcond : (1:ℚ)/100 < changeRatio blankPix c8f2.pix ∧
      1 < c8f2.t - lastSceneTime [⟨0, "frame_0000.jpg", []⟩] := by
    constructor
    · show (1:ℚ)/100 < changeRatio blankPix ninetyPix
      rw [changeRatio_blank_ninety]
      norm_num
    · show (1:ℚ) < 2 - lastSceneTime [⟨0, "frame_0000.jpg", []⟩]
      rw [lastSceneTime_first]
      norm_num
  rw [stepSample, if_pos hcond]
  show (ninetyPix, [(⟨0, "frame_0000.jpg", []⟩ : Scene)] ++ [⟨(2:ℚ), frameName 2, []⟩]) = _
  rw [frameName_two]
  rfl

lemma extract_key_frames_cons (θ : ℚ) (f : Frame) (rest : List (Option Frame)) :
    extract_key_frames ⟨true, some f :: rest⟩ θ =
      extractLoop θ rest f.pix [⟨0, "frame_0000.jpg", []⟩] 0 := rfl

lemma c8_extract : extract_key_frames c8video (1/100) = c8scenes := by
  show extract_key_frames ⟨true, some c8f0 :: [some c8f1, some c8f2]⟩ (1/100) = c8scenes
  rw [extract_key_frames_cons]
  have hpix : c8f0.pix = blankPix := rfl
  rw [hpix, extractLoop_skip _ _ _ _ _ _ (by norm_num),
    extractLoop_proc _ _ _ _ _ _ (by norm_num), c8_step]
  rfl

lemma d2_nostep : stepSample (1/100) blankPix [⟨0, "frame_0000.jpg", []⟩] d2f2 =
    (blankPix, [⟨0, "frame_0000.jpg", []⟩]) := by
  have hcond : ¬((1:ℚ)/100 < changeRatio blankPix d2f2.pix ∧
      1 < d2f2.t - lastSceneTime [⟨0, "frame_0000.jpg", []⟩]) := by
    intro h
    have h1 : (1:ℚ)/100 < changeRatio blankPix drift1Pix := h.1
    rw [changeRatio_blank_drift1] at h1
    norm_num at h1
  rw [stepSample, if_neg hcond]

lemma d2_step : stepSample (1/100) blankPix [⟨0, "frame_0000.jpg", []⟩] d2f4 =
    (drift2Pix, c8scenes) := by
  have hcond : (1:ℚ)/100 < changeRatio blankPix d2f4.pix ∧
      1 < d2f4.t - lastSceneTime [⟨0, "frame_0000.jpg", []⟩] := by
    constructor
    · show (1:ℚ)/100 < changeRatio blankPix drift2Pix
      rw [changeRatio_blank_drift2]
      norm_num
    · show (1:ℚ) < 2 - lastSceneTime [⟨0, "frame_0000.jpg", []⟩]
      rw [lastSceneTime_first]
      norm_num
  rw [stepSample, if_pos hcond]
  show (drift2Pix, [(⟨0, "frame_0000.jpg", []⟩ : Scene)] ++ [⟨(2:ℚ), frameName 2, []⟩]) = _
  rw [frameName_two]
  rfl

lemma d2_extract : extract_key_frames d2video (1/100) = c8scenes := by
  show extract_key_frames
      ⟨true, some (⟨0, blankPix⟩ : Frame) :: [some d2f1, some d2f2, some d2f3, some d2f4]⟩
      (1/100) = c8scenes
  rw [extract_key_frames_cons]
  have hpix : (⟨0, blankPix⟩ : Frame).pix = blankPix := rfl
  rw [hpix, extractLoop_skip _ _ _ _ _ _ (by norm_num),
    extractLoop_proc _ _ _ _ _ _ (by norm_num), d2_nostep,
    extractLoop_skip _ _ _ _ _ _ (by norm_num),
    extractLoop_proc _ _ _ _ _ _ (by norm_num), d2_step]
  rfl

lemma c8_vtt : process_vtt (some c8cues) c8scenes = some (.ok c8scenesE) := by
  have h1 : process_vtt (some c8cues) c8scenes =
      some (.ok (assignCues c8cues (setEndTimes c8scenes))) := rfl
  have h2 : setEndTimes c8scenes =
      [⟨0, "frame_0000.jpg", [], ((2:ℚ) : WithTop ℚ)⟩, ⟨2, "frame_0002.jpg", [], ⊤⟩] := rfl
  have h3 : assignCues c8cues (setEndTimes c8scenes) =
      assignCue (5/2) "world"
        (assignCue 1 "hello"
          [⟨0, "frame_0000.jpg", [], ((2:ℚ) : WithTop ℚ)⟩, ⟨2, "frame_0002.jpg", [], ⊤⟩]) := by
    rw [h2]
    rfl
  have hm1 : matchP 1 (⟨0, "frame_0000.jpg", [], ((2:ℚ) : WithTop ℚ)⟩ : SceneE) := by
    constructor
    · show (0:ℚ) ≤ 1
      norm_num
    · show ((1:ℚ) : WithTop ℚ) < ((2:ℚ) : WithTop ℚ)
      exact_mod_cast (by norm_num : (1:ℚ) < 2)
  have h4 : assignCue 1 "hello"
      [⟨0, "frame_0000.jpg", [], ((2:ℚ) : WithTop ℚ)⟩, ⟨2, "frame_0002.jpg", [], ⊤⟩] =
      [⟨0, "frame_0000.jpg", ["hello"], ((2:ℚ) : WithTop ℚ)⟩, ⟨2, "frame_0002.jpg", [], ⊤⟩] := by
    rw [assignCue, if_pos hm1]
    rfl
  have hm2 : ¬ matchP (5/2) (⟨0, "frame_0000.jpg", ["hello"], ((2:ℚ) : WithTop ℚ)⟩ : SceneE) := by
    intro h
    have h5 : ((5/2 : ℚ) : WithTop ℚ) < ((2:ℚ) : WithTop ℚ) := h.2
    have h6 : (5/2 : ℚ) < 2 := by exact_mod_cast h5
    norm_num at h6
  have hm3 : matchP (5/2) (⟨2, "frame_0002.jpg", [], ⊤⟩ : SceneE) := by
    constructor
    · show (2:ℚ) ≤ 5/2
      norm_num
    · exact WithTop.coe_lt_top _
  have h5 : assignCue (5/2) "world"
      [⟨0, "frame_0000.jpg", ["hello"], ((2:ℚ) : WithTop ℚ)⟩, ⟨2, "frame_0002.jpg", [], ⊤⟩] =
      c8scenesE := by
    rw [assignCue, if_neg hm2, assignCue, if_pos hm3]
    rfl
  rw [h1, h3, h4, h5]

lemma extractLoop_truncate (θ : ℚ) :
    ∀ (pre rest : List (Option Frame)) (prev : List ℕ) (scenes : List Scene) (cnt : ℕ),
      (∀ x ∈ pre, x ≠ none) →
      extractLoop θ (pre ++ none :: rest) prev scenes cnt =
        extractLoop θ pre prev scenes cnt := by
  intro pre
  induction pre with
  | nil => intro rest prev scenes cnt _; rfl
  | cons x pre' ih =>
    intro rest prev scenes cnt hpre
    match x with
    | none => exact absurd rfl (hpre none (List.mem_cons_self _ _))
    | some f =>
      have hpre' : ∀ y ∈ pre', y ≠ none := fun y hy => hpre y (List.mem_cons_of_mem _ hy)
      by_cases hskip : (cnt + 1) % 2 ≠ 0
      · rw [List.cons_append, extractLoop_skip _ _ _ _ _ _ hskip,
          extractLoop_skip _ _ _ _ _ _ hskip, ih rest prev scenes (cnt + 1) hpre']
      · rw [List.cons_append, extractLoop_proc _ _ _ _ _ _ hskip,
          extractLoop_proc _ _ _ _ _ _ hskip, ih _ _ _ _ hpre']

lemma changeRatio_single : changeRatio [0] [255] = 1 / 230400 := by
  have h : countNonZero (thresholdBin (absdiffL [0] [255])) = 1 := rfl
  rw [changeRatio, h]
  norm_num [totalPixels, resizeW, resizeH]

lemma matches_exist (l : List SceneE) (q : ℚ) (hne : l ≠ [])
    (hchain : List.Chain' (fun a b => a.end_time = (b.time : WithTop ℚ)) l)
    (hlast : (l.getLast hne).end_time = ⊤)
    (hinc : List.Pairwise (fun a b : SceneE => a.time < b.time) l)
    (hhead : (l.head hne).time ≤ q) :
    ∃ sc ∈ l, matchP q sc := by
  have h1 := matches_filter_length_one l q hne hchain hlast hinc hhead
  have h2 : l.filter (fun sc => decide (matchP q sc)) ≠ [] := by
    intro h
    rw [h] at h1
    simp at h1
  obtain ⟨sc, hsc⟩ := List.exists_mem_of_ne_nil _ h2
  have h3 := List.mem_filter.mp hsc
  exact ⟨sc, h3.1, by simpa using h3.2⟩

/-! ## Claims -/

/-- C1: while tracking, a processed sample appends a new scene boundary iff
its change ratio strictly exceeds the threshold and its timestamp exceeds the
last boundary's timestamp by strictly more than `min_duration = 1`; in
particular a sample whose change ratio equals the threshold exactly never
triggers. -/
theorem C1_boundary_iff (θ : ℚ) (prev : List ℕ) (scenes : List Scene) (f : Frame) :
    ((stepSample θ prev scenes f).2 ≠ scenes ↔
      (θ < changeRatio prev f.pix ∧ 1 < f.t - lastSceneTime scenes)) ∧
    ((stepSample θ prev scenes f).2 ≠ scenes →
      (stepSample θ prev scenes f).2 = scenes ++ [⟨f.t, frameName f.t, []⟩]) ∧
    (changeRatio prev f.pix = θ → (stepSample θ prev scenes f).2 = scenes) := by
  refine ⟨⟨?_, ?_⟩, ?_, ?_⟩
  · intro hne
    by_contra hcond
    rw [stepSample, if_neg hcond] at hne
    exact hne rfl
  · intro hcond heq
    rw [stepSample, if_pos hcond] at heq
    have := congrArg List.length heq
    simp at this
  · intro hne
    by_cases hcond : θ < changeRatio prev f.pix ∧ 1 < f.t - lastSceneTime scenes
    · rw [stepSample, if_pos hcond]
    · rw [stepSample, if_neg hcond] at hne
      exact absurd rfl hne
  · intro hEq
    rw [stepSample, if_neg]
    intro hcond
    rw [hEq] at hcond
    exact lt_irrefl θ hcond.1

/-- Witness for C1 at a concrete sample whose change ratio equals the
threshold exactly: no boundary is appended. -/
theorem C1_boundary_iff_witness :
    (stepSample (changeRatio [0] [255]) [0] [⟨0, "frame_0000.jpg", []⟩] ⟨2, [255]⟩).2 =
      [⟨0, "frame_0000.jpg", []⟩] :=
  (C1_boundary_iff (changeRatio [0] [255]) [0] [⟨0, "frame_0000.jpg", []⟩] ⟨2, [255]⟩).2.2 rfl

/-- C2: the reference buffer is reassigned to the current sample exactly when
a boundary is emitted and kept otherwise, so every comparison is against the
analysis buffer of the most recently confirmed boundary (initially the first
frame's); consequently a stream of individually sub-threshold changes
accumulates against that reference until it triggers, as the `d2video` drift
stream shows: both processed adjacent differences stay at or below the 1
percent threshold, yet the accumulated difference crosses it and a second
boundary is emitted at t = 2. -/
theorem C2_reference_semantics :
    (∀ (θ : ℚ) (prev : List ℕ) (scenes : List Scene) (f : Frame),
      ((stepSample θ prev scenes f).2 ≠ scenes → (stepSample θ prev scenes f).1 = f.pix) ∧
      ((stepSample θ prev scenes f).2 = scenes → (stepSample θ prev scenes f).1 = prev)) ∧
    (∀ (θ : ℚ) (f : Frame) (rest : List (Option Frame)),
      extract_key_frames ⟨true, some f :: rest⟩ θ =
        extractLoop θ rest f.pix [⟨0, "frame_0000.jpg", []⟩] 0) ∧
    extract_key_frames d2video (1/100) = c8scenes ∧
    changeRatio blankPix drift1Pix ≤ 1/100 ∧
    changeRatio drift1Pix drift2Pix ≤ 1/100 ∧
    1/100 < changeRatio blankPix drift2Pix := by
  refine ⟨?_, ?_, d2_extract, ?_, ?_, ?_⟩
  · intro θ prev scenes f
    constructor
    · intro hne
      by_cases hcond : θ < changeRatio prev f.pix ∧ 1 < f.t - lastSceneTime scenes
      · rw [stepSample, if_pos hcond]
      · rw [stepSample, if_neg hcond] at hne
        exact absurd rfl hne
    · intro heq
      by_cases hcond : θ < changeRatio prev f.pix ∧ 1 < f.t - lastSceneTime scenes
      · rw [stepSample, if_pos hcond] at heq
        have := congrArg List.length heq
        simp at this
      · rw [stepSample, if_neg hcond]
  · intro θ f rest
    exact extract_key_frames_cons θ f rest
  · rw [changeRatio_blank_drift1]
    norm_num
  · rw [changeRatio_drift1_drift2]
    norm_num
  · rw [changeRatio_blank_drift2]
    norm_num

/-- Witness for C2 at a concrete triggering sample: the reference moves to
the current sample's buffer. -/
theorem C2_reference_semantics_witness :
    (stepSample 0 [0] [⟨0, "frame_0000.jpg", []⟩] ⟨2, [255]⟩).1 = [255] := by
  have hcond : (0:ℚ) < changeRatio [0] (⟨2, [255]⟩ : Frame).pix ∧
      1 < (⟨2, [255]⟩ : Frame).t - lastSceneTime [⟨0, "frame_0000.jpg", []⟩] := by
    constructor
    · show (0:ℚ) < changeRatio [0] [255]
      rw [changeRatio_single]
      norm_num
    · show (1:ℚ) < 2 - lastSceneTime [⟨0, "frame_0000.jpg", []⟩]
      rw [lastSceneTime_first]
      norm_num
  have hne : (stepSample 0 [0] [⟨0, "frame_0000.jpg", []⟩] ⟨2, [255]⟩).2 ≠
      [⟨0, "frame_0000.jpg", []⟩] := by
    rw [stepSample, if_pos hcond]
    intro heq
    have := congrArg List.length heq
    simp at this
  exact (C2_reference_semantics.1 0 [0] [⟨0, "frame_0000.jpg", []⟩] ⟨2, [255]⟩).1 hne

lemma setEndTimes_head_time (s : Scene) (l : List Scene) (h : setEndTimes (s :: l) ≠ []) :
    ((setEndTimes (s :: l)).head h).time = s.time := by
  cases l <;> rfl

/-- C3: on any stream whose first read succeeds, the scene list starts with
the unconditional scene at time 0, has strictly increasing start times, and
after the end-time pass the intervals are contiguous
(`end_time[i] = time[i+1]`), the last one is unbounded, and together they
cover every nonnegative instant. -/
theorem C3_timeline_invariants (v : Video) (θ : ℚ) (f : Frame) (rest : List (Option Frame))
    (hop : v.opened = true) (hfr : v.frames = some f :: rest) :
    extract_key_frames v θ ≠ [] ∧
    (extract_key_frames v θ).head? = some ⟨0, "frame_0000.jpg", []⟩ ∧
    ((extract_key_frames v θ).map Scene.time).Pairwise (· < ·) ∧
    List.Chain' (fun a b => a.end_time = (b.time : WithTop ℚ))
      (setEndTimes (extract_key_frames v θ)) ∧
    (∀ h2 : setEndTimes (extract_key_frames v θ) ≠ [],
      ((setEndTimes (extract_key_frames v θ)).getLast h2).end_time = ⊤) ∧
    (∀ q : ℚ, 0 ≤ q →
      ∃ sc ∈ setEndTimes (extract_key_frames v θ),
        sc.time ≤ q ∧ (q : WithTop ℚ) < sc.end_time) := by
  obtain ⟨tail, heq, hchain, himg⟩ := extract_shape v θ f rest hop hfr
  have hpw : ((⟨0, "frame_0000.jpg", []⟩ : Scene) :: tail).Pairwise sceneGap :=
    List.chain_iff_pairwise.mp hchain
  have hpwlt : ((⟨0, "frame_0000.jpg", []⟩ : Scene) :: tail).Pairwise
      (fun a b => a.time < b.time) := by
    refine hpw.imp ?_
    intro a b hab
    simp only [sceneGap] at hab
    linarith
  have hne : extract_key_frames v θ ≠ [] := by
    rw [heq]
    simp
  have hmaplt : ((extract_key_frames v θ).map Scene.time).Pairwise (· < ·) := by
    rw [heq, List.pairwise_map]
    exact hpwlt
  refine ⟨hne, by rw [heq]; rfl, hmaplt, setEndTimes_chain _,
    fun h2 => setEndTimes_last _ h2, ?_⟩
  intro q hq
  rw [heq]
  have hneE : setEndTimes ((⟨0, "frame_0000.jpg", []⟩ : Scene) :: tail) ≠ [] :=
    setEndTimes_ne_nil _ (by simp)
  have hincE : (setEndTimes ((⟨0, "frame_0000.jpg", []⟩ : Scene) :: tail)).Pairwise
      (fun a b : SceneE => a.time < b.time) := by
    have h1 : ((setEndTimes ((⟨0, "frame_0000.jpg", []⟩ : Scene) :: tail)).map
        SceneE.time).Pairwise (· < ·) := by
      rw [setEndTimes_map_time, List.pairwise_map]
      exact hpwlt
    rw [List.pairwise_map] at h1
    exact h1
  have hheadE : ((setEndTimes ((⟨0, "frame_0000.jpg", []⟩ : Scene) :: tail)).head hneE).time
      ≤ q := by
    rw [setEndTimes_head_time]
    exact hq
  obtain ⟨sc, hmem, hm⟩ := matches_exist _ q hneE (setEndTimes_chain _)
    (setEndTimes_last _ hneE) hincE hheadE
  exact ⟨sc, hmem, hm⟩

/-- Witness for C3 at a one-frame stream. -/
theorem C3_timeline_invariants_witness :
    extract_key_frames ⟨true, [some ⟨0, []⟩]⟩ (1/100) ≠ [] ∧
    (extract_key_frames ⟨true, [some ⟨0, []⟩]⟩ (1/100)).head? =
      some ⟨0, "frame_0000.jpg", []⟩ ∧
    ((extract_key_frames ⟨true, [some ⟨0, []⟩]⟩ (1/100)).map Scene.time).Pairwise (· < ·) ∧
    List.Chain' (fun a b => a.end_time = (b.time : WithTop ℚ))
      (setEndTimes (extract_key_frames ⟨true, [some ⟨0, []⟩]⟩ (1/100))) ∧
    (∀ h2 : setEndTimes (extract_key_frames ⟨true, [some ⟨0, []⟩]⟩ (1/100)) ≠ [],
      ((setEndTimes (extract_key_frames ⟨true, [some ⟨0, []⟩]⟩ (1/100))).getLast h2).end_time
        = ⊤) ∧
    (∀ q : ℚ, 0 ≤ q →
      ∃ sc ∈ setEndTimes (extract_key_frames ⟨true, [some ⟨0, []⟩]⟩ (1/100)),
        sc.time ≤ q ∧ (q : WithTop ℚ) < sc.end_time) :=
  C3_timeline_invariants ⟨true, [some ⟨0, []⟩]⟩ (1/100) ⟨0, []⟩ [] rfl rfl

/-- C4: on a nonempty contiguous interval list starting at 0 and a time-sorted
sequence of nonnegative cues, the aligner turns each scene's caption list
into the in-order texts of exactly the cues falling in its interval (so each
cue lands in the unique matching scene, order and ties are preserved), and
each cue matches exactly one scene. -/
theorem C4_cue_partition (scenes : List SceneE) (cues : List Cue) (hne : scenes ≠ [])
    (hchain : List.Chain' (fun a b => a.end_time = (b.time : WithTop ℚ)) scenes)
    (hlast : (scenes.getLast hne).end_time = ⊤)
    (hinc : List.Pairwise (fun a b : SceneE => a.time < b.time) scenes)
    (hhead : (scenes.head hne).time = 0)
    (hcues : ∀ c ∈ cues, 0 ≤ c.start)
    (_hsorted : List.Pairwise (fun a b : Cue => a.start ≤ b.start) cues) :
    assignCues cues scenes = scenes.map (fun sc =>
      ⟨sc.time, sc.img,
        sc.captions ++ ((cues.filter (fun c => decide (matchP c.start sc))).map Cue.text),
        sc.end_time⟩) ∧
    ∀ c ∈ cues, (scenes.filter (fun sc => decide (matchP c.start sc))).length = 1 := by
  constructor
  · exact assignCues_eq_map cues scenes
      (fun c _ => matches_pairwise_disjoint scenes c.start hchain hinc)
  · intro c hc
    refine matches_filter_length_one scenes c.start hne hchain hlast hinc ?_
    rw [hhead]
    exact hcues c hc

/-- Witness for C4 on a single scene covering all of time and one cue at 0. -/
theorem C4_cue_partition_witness :
    assignCues [⟨0, "x"⟩] [⟨0, "a", [], ⊤⟩] =
      ([⟨0, "a", [], ⊤⟩] : List SceneE).map (fun sc =>
        ⟨sc.time, sc.img,
          sc.captions ++
            ((([⟨0, "x"⟩] : List Cue).filter
              (fun c => decide (matchP c.start sc))).map Cue.text),
          sc.end_time⟩) ∧
    ∀ c ∈ ([⟨0, "x"⟩] : List Cue),
      (([⟨0, "a", [], ⊤⟩] : List SceneE).filter
        (fun sc => decide (matchP c.start sc))).length = 1 := by
  refine C4_cue_partition [⟨0, "a", [], ⊤⟩] [⟨0, "x"⟩] (by simp)
    (List.chain'_singleton _) rfl (by simp) rfl ?_ (by simp)
  intro c hc
  rcases List.mem_singleton.mp hc with rfl
  exact le_refl 0

/-- C5: an empty decoded stream indeed yields an empty scene list, but running
`process_vtt` on that empty list with any successfully parsed cue file
executes `scenes[-1]` on an empty list and raises an uncaught IndexError
(modelled by the result `none`) instead of completing as a no-op. -/
theorem C5_empty_stream_behavior :
    extract_key_frames ⟨true, []⟩ (1/100) = [] ∧
    process_vtt (some []) [] = none ∧
    process_vtt (some [⟨1, "hello"⟩]) [] = none :=
  ⟨rfl, rfl, rfl⟩

/-- C6 counterexample: an unopenable source returns the very same value as an
empty stream (`[]`), so the outcome is not a distinguishable fatal error —
while the same frames with an opened source produce a nonempty scene list. -/
theorem C6_counterexample :
    extract_key_frames ⟨false, [some ⟨0, [0]⟩]⟩ (1/100) =
      extract_key_frames ⟨true, []⟩ (1/100) ∧
    extract_key_frames ⟨true, [some ⟨0, [0]⟩]⟩ (1/100) ≠ [] := by
  constructor
  · rfl
  · intro h
    have h2 : extract_key_frames ⟨true, [some ⟨0, [0]⟩]⟩ (1/100) =
        [⟨0, "frame_0000.jpg", []⟩] := rfl
    rw [h2] at h
    simp at h

/-- C6 amended: an unopenable source reports only a printed message and
returns the empty scene list (the same value as an empty stream), and a
failed read truncates the stream at that point, returning the scenes
collected so far. -/
theorem C6_failure_handling (θ : ℚ) (pre rest fs : List (Option Frame))
    (hpre : ∀ x ∈ pre, x ≠ none) :
    extract_key_frames ⟨true, pre ++ none :: rest⟩ θ =
      extract_key_frames ⟨true, pre⟩ θ ∧
    extract_key_frames ⟨false, fs⟩ θ = [] := by
  constructor
  · cases pre with
    | nil => rfl
    | cons x pre' =>
      match x with
      | none => exact absurd rfl (hpre none (List.mem_cons_self _ _))
      | some f =>
        rw [List.cons_append, extract_key_frames_cons, extract_key_frames_cons]
        exact extractLoop_truncate θ pre' rest f.pix _ 0
          (fun y hy => hpre y (List.mem_cons_of_mem _ hy))
  · rfl

/-- Witness for C6: truncation at a concrete failed read. -/
theorem C6_failure_handling_witness :
    extract_key_frames ⟨true, [some ⟨0, [0]⟩] ++ none :: [some ⟨5, [255]⟩]⟩ (1/100) =
      extract_key_frames ⟨true, [some ⟨0, [0]⟩]⟩ (1/100) :=
  (C6_failure_handling (1/100) [some ⟨0, [0]⟩] [some ⟨5, [255]⟩] [] (by simp)).1

/-- C7: a caption-parse failure is recoverable: `process_vtt` returns the
scene list unchanged, every scene produced by the detector has an empty
caption list, and succeeding with an empty cue sequence gives the same
records up to the internal `end_time` key. -/
theorem C7_caption_parse_recovery :
    (∀ scenes : List Scene, process_vtt none scenes = some (.parseFailed scenes)) ∧
    (∀ (v : Video) (θ : ℚ), ∀ s ∈ extract_key_frames v θ, s.captions = []) ∧
    (∀ scenes : List Scene, scenes ≠ [] →
      process_vtt (some []) scenes = some (.ok (setEndTimes scenes)) ∧
      (setEndTimes scenes).map projScene = scenes) := by
  refine ⟨fun scenes => rfl, ?_, ?_⟩
  · intro v θ s hs
    by_cases hop : v.opened = true
    · cases hfr : v.frames with
      | nil =>
        have hempty : extract_key_frames v θ = [] := by
          rw [extract_key_frames, if_neg (by simp [hop]), hfr]
        rw [hempty] at hs
        simp at hs
      | cons o rest =>
        cases o with
        | none =>
          have hempty : extract_key_frames v θ = [] := by
            rw [extract_key_frames, if_neg (by simp [hop]), hfr]
          rw [hempty] at hs
          simp at hs
        | some f =>
          obtain ⟨tail, heq, _, himg⟩ := extract_shape v θ f rest hop hfr
          rw [heq] at hs
          rcases List.mem_cons.mp hs with rfl | hs'
          · rfl
          · exact (himg s hs').2
    · have hopf : v.opened = false := by
        cases hv : v.opened
        · rfl
        · exact absurd hv hop
      have hempty : extract_key_frames v θ = [] := by
        rw [extract_key_frames, if_pos hopf]
      rw [hempty] at hs
      simp at hs
  · intro scenes hne
    constructor
    · cases scenes with
      | nil => exact absurd rfl hne
      | cons s rest => rfl
    · exact setEndTimes_proj scenes

/-- Witness for C7: succeeding with an empty cue sequence on a one-scene
list keeps the scene with empty captions. -/
theorem C7_caption_parse_recovery_witness :
    process_vtt (some []) [⟨0, "a", []⟩] = some (.ok [⟨0, "a", [], ⊤⟩]) :=
  (C7_caption_parse_recovery.2.2 [⟨0, "a", []⟩] (by simp)).1

/-- C8: the three-frame end-to-end scenario with default configuration yields
exactly the scenes `[0, 2)` and `[2, ∞)` (frame 1 at t = 0.5 falls on an odd
`frame_count` and is skipped), the cue at t = 1 lands in scene 0 and the cue
at t = 2.5 in scene 1. -/
theorem C8_end_to_end :
    extract_key_frames c8video (1/100) = c8scenes ∧
    process_vtt (some c8cues) c8scenes = some (.ok c8scenesE) :=
  ⟨c8_extract, c8_vtt⟩

/-- C9: when `process_vtt` succeeds, the resulting records are the input
scenes in the same number, order and position, with `time` and `img`
untouched and captions only extended. -/
theorem C9_scene_records_stable (cues : List Cue) (scenes : List Scene) (se : List SceneE)
    (h : process_vtt (some cues) scenes = some (.ok se)) :
    se.length = scenes.length ∧
    ∀ (i : ℕ) (h1 : i < se.length) (h2 : i < scenes.length),
      (se.get ⟨i, h1⟩).time = (scenes.get ⟨i, h2⟩).time ∧
      (se.get ⟨i, h1⟩).img = (scenes.get ⟨i, h2⟩).img ∧
      ∃ added, (se.get ⟨i, h1⟩).captions = (scenes.get ⟨i, h2⟩).captions ++ added := by
  cases scenes with
  | nil => simp [process_vtt] at h
  | cons s rest =>
    have hvtt : process_vtt (some cues) (s :: rest) =
        some (.ok (assignCues cues (setEndTimes (s :: rest)))) := rfl
    rw [hvtt] at h
    simp only [Option.some.injEq, PvttResult.ok.injEq] at h
    subst h
    have hlen1 : (assignCues cues (setEndTimes (s :: rest))).length =
        (setEndTimes (s :: rest)).length := assignCues_length cues _
    have hlen2 : (setEndTimes (s :: rest)).length = (s :: rest).length :=
      setEndTimes_length _
    refine ⟨by rw [hlen1, hlen2], ?_⟩
    intro i h1 h2
    have hiL : i < (setEndTimes (s :: rest)).length := by
      rw [hlen2]
      exact h2
    obtain ⟨_, hget⟩ := List.forall₂_iff_get.mp (assignCues_forall2 cues (setEndTimes (s :: rest)))
    have hcap := hget i hiL h1
    obtain ⟨ht, hi, _, added, hc⟩ := hcap
    have hproj := setEndTimes_get (s :: rest) i hiL h2
    have hpt : ((setEndTimes (s :: rest)).get ⟨i, hiL⟩).time =
        ((s :: rest).get ⟨i, h2⟩).time := by
      rw [← hproj]
      rfl
    have hpi : ((setEndTimes (s :: rest)).get ⟨i, hiL⟩).img =
        ((s :: rest).get ⟨i, h2⟩).img := by
      rw [← hproj]
      rfl
    have hpc : ((setEndTimes (s :: rest)).get ⟨i, hiL⟩).captions =
        ((s :: rest).get ⟨i, h2⟩).captions := by
      rw [← hproj]
      rfl
    exact ⟨ht.trans hpt, hi.trans hpi, added, by rw [hc, hpc]⟩

/-- Witness for C9 on a one-scene list and a single matching cue. -/
theorem C9_scene_records_stable_witness :
    ([⟨0, "a", ["hi"], ⊤⟩] : List SceneE).length = ([⟨0, "a", []⟩] : List Scene).length :=
  (C9_scene_records_stable [⟨0, "hi"⟩] [⟨0, "a", []⟩] [⟨0, "a", ["hi"], ⊤⟩] (by decide)).1

/-- C10: across any run, the integer seconds used to name the saved frames
are strictly increasing (the first scene uses 0, every later boundary is more
than `min_duration` after the previous one), so all image filenames are
pairwise distinct and no saved frame is overwritten. -/
theorem C10_distinct_filenames (v : Video) (θ : ℚ) :
    ((extract_key_frames v θ).map (fun s => pyInt s.time)).Pairwise (· < ·) ∧
    ((extract_key_frames v θ).map Scene.img).Pairwise (· ≠ ·) := by
  by_cases hop : v.opened = true
  · cases hfr : v.frames with
    | nil =>
      have hempty : extract_key_frames v θ = [] := by
        rw [extract_key_frames, if_neg (by simp [hop]), hfr]
      rw [hempty]
      exact ⟨List.Pairwise.nil, List.Pairwise.nil⟩
    | cons o rest =>
      cases o with
      | none =>
        have hempty : extract_key_frames v θ = [] := by
          rw [extract_key_frames, if_neg (by simp [hop]), hfr]
        rw [hempty]
        exact ⟨List.Pairwise.nil, List.Pairwise.nil⟩
      | some f =>
        obtain ⟨tail, heq, hchain, himg⟩ := extract_shape v θ f rest hop hfr
        rw [heq]
        have hpw : ((⟨0, "frame_0000.jpg", []⟩ : Scene) :: tail).Pairwise sceneGap :=
          List.chain_iff_pairwise.mp hchain
        have hmem : ∀ x ∈ (⟨0, "frame_0000.jpg", []⟩ : Scene) :: tail,
            0 ≤ x.time ∧ x.img = frameName x.time := by
          intro x hx
          rcases List.mem_cons.mp hx with rfl | hx'
          · exact ⟨le_refl 0, frameName_zero.symm⟩
          · have hg : sceneGap ⟨0, "frame_0000.jpg", []⟩ x :=
              (List.pairwise_cons.mp hpw).1 x hx'
            have hgt : (0:ℚ) + 1 < x.time := hg
            exact ⟨by linarith, (himg x hx').1⟩
        constructor
        · rw [List.pairwise_map]
          refine List.Pairwise.imp_of_mem ?_ hpw
          intro a b ha hb hab
          have h0a : 0 ≤ a.time := (hmem a ha).1
          have hab' : a.time + 1 < b.time := hab
          have h0b : 0 ≤ b.time := by linarith
          rw [pyInt_of_nonneg h0a, pyInt_of_nonneg h0b]
          have h1 : ⌊a.time + 1⌋ ≤ ⌊b.time⌋ := Int.floor_le_floor hab'.le
          rw [Int.floor_add_one] at h1
          omega
        · rw [List.pairwise_map]
          refine List.Pairwise.imp_of_mem ?_ hpw
          intro a b ha hb hab
          have h0a : 0 ≤ a.time := (hmem a ha).1
          have hab' : a.time + 1 < b.time := hab
          have h0b : 0 ≤ b.time := by linarith
          rw [(hmem a ha).2, (hmem b hb).2]
          apply frameName_ne h0a h0b
          rw [pyInt_of_nonneg h0a, pyInt_of_nonneg h0b]
          have h1 : ⌊a.time + 1⌋ ≤ ⌊b.time⌋ := Int.floor_le_floor hab'.le
          rw [Int.floor_add_one] at h1
          omega
  · have hopf : v.opened = false := by
      cases hv : v.opened
      · rfl
      · exact absurd hv hop
    have hempty : extract_key_frames v θ = [] := by
      rw [extract_key_frames, if_pos hopf]
    rw [hempty]
    exact ⟨List.Pairwise.nil, List.Pairwise.nil⟩
